import Mathlib

/-!
# Verification of the `llm-tools-server` RAG pipeline

Shallow embedding of the RAG subsystem of `llm_api_server`
(`rag/config.py`, `rag/crawler.py`, `rag/indexer.py`) and proofs about it.

Modelling conventions:
* Python `float` weights and cross-encoder scores are modelled exactly as
  rationals (`ℚ`).
* Python `datetime` values are modelled as integer epoch seconds;
  `timedelta(hours=h)` becomes `3600 * h` seconds.
* Python dicts used as keyed stores are modelled as association lists read
  with `List.lookup`.
* Python truthiness of an optional string (`if s:`) is `strTruthy`:
  `None` and `""` are falsy.
* An optional `int | None` field such as `max_pages` is `Option ℕ`; the
  Python truthiness test `if self.max_pages:` is false for both `None`
  and `0`, which `maxPagesTruthy` mirrors.
-/

namespace LlmToolsServer

/-- Python truthiness of an optional string: `None` and `""` are falsy. -/
def strTruthy : Option String → Bool
  | none => false
  | some s => s != ""

/-- Python truthiness of the optional integer `max_pages`:
`None` and `0` are both falsy. -/
def maxPagesTruthy : Option Nat → Bool
  | none => false
  | some m => m != 0

/-- Python `min(scores)` over a non-empty list (0 as a junk value on `[]`,
which the source never reaches because it guards `if not results`). -/
def pyMin : List ℚ → ℚ
  | [] => 0
  | x :: xs => xs.foldl min x

/-- Python `max(scores)` over a non-empty list (0 as a junk value on `[]`). -/
def pyMax : List ℚ → ℚ
  | [] => 0
  | x :: xs => xs.foldl max x

/-! ## `rag/config.py` — `RAGConfig` (the fields the claims mention) -/

/-- The fields of `RAGConfig` that the verified claims depend on
(`rag/config.py`). Defaults are the source defaults. -/
structure RAGConfig where
  hybrid_bm25_weight : ℚ := 3/10
  hybrid_semantic_weight : ℚ := 7/10
  search_top_k : Nat := 5
  retriever_candidate_multiplier : Nat := 3
  rerank_enabled : Bool := true
  parent_context_max_chars : Nat := 500
  embedding_model : String := "all-MiniLM-L6-v2"
  max_pages : Option Nat := none
  update_check_interval_hours : Nat := 168
  page_cache_ttl_hours : Nat := 168
  manual_urls : List String := []
  manual_urls_only : Bool := false
deriving Repr, DecidableEq

/-- `RAGConfig.__post_init__` weight validation (`rag/config.py` lines
96–102): raises `ValueError` when `abs(total_weight - 1.0) > 0.01`. -/
def ragConfigPostInit (cfg : RAGConfig) : Except String RAGConfig :=
  if |cfg.hybrid_bm25_weight + cfg.hybrid_semantic_weight - 1| > 1/100 then
    .error "Hybrid search weights must sum to 1.0"
  else
    .ok cfg

/-! ## `rag/crawler.py` — `_normalize_url` and `discover_and_crawl` -/

/-- Python `s.split(c)[0]`: everything strictly before the first
occurrence of `c`. -/
def splitHead (c : Char) (s : List Char) : List Char :=
  s.takeWhile (fun a => a ≠ c)

/-- Python `s.rstrip("/")`: remove every trailing `'/'`. -/
def rstripSlash (s : List Char) : List Char :=
  (s.reverse.dropWhile (fun a => a = '/')).reverse

/-- `DocumentCrawler._normalize_url` (`rag/crawler.py` lines 461–474):
`url.split("?")[0].split("#")[0]` then `.rstrip("/")`, on the character
list of the URL. -/
def normalizeUrlChars (s : List Char) : List Char :=
  rstripSlash (splitHead '#' (splitHead '?' s))

/-- `_normalize_url` on `String`s. -/
def normalizeUrl (s : String) : String :=
  String.mk (normalizeUrlChars s.data)

/-- A URL entry produced by discovery (`{"url": ..., "lastmod": ...}`
dicts in `rag/crawler.py`). -/
structure UrlInfo where
  url : String
  lastmod : Option String := none
deriving Repr, DecidableEq

/-- First-occurrence key order of the Python insertion-ordered dict
comprehension `{info["url"]: info for info in urls}`. -/
def dedupUrlKeys (l : List UrlInfo) : List String :=
  l.foldl (fun ks i => if i.url ∈ ks then ks else ks ++ [i.url]) []

/-- `list({info["url"]: info for info in urls}.values())`: keys keep
first-occurrence order, each key maps to its last value. -/
def dedupByUrl (l : List UrlInfo) : List UrlInfo :=
  (dedupUrlKeys l).filterMap (fun k => l.reverse.find? (fun i => i.url == k))

/-- `DocumentCrawler.discover_and_crawl` (`rag/crawler.py` lines 138–178).
The network-dependent helpers `_discover_sitemap` and `_recursive_crawl`
enter as the value lists they return.  Steps, as in the source: add
normalized manual URLs; return them untouched when `manual_urls_only`;
otherwise extend with sitemap URLs, or with recursively crawled URLs when
the sitemap list is empty; deduplicate by URL; finally truncate to
`max_pages` only under `if self.max_pages and len(result) > self.max_pages`
(so `max_pages = 0` is falsy and disables the limit). -/
def discoverAndCrawl (manualUrls : List String) (manualOnly : Bool)
    (maxPages : Option Nat) (sitemapUrls recursiveUrls : List UrlInfo) :
    List UrlInfo :=
  let urls := manualUrls.map (fun u => { url := normalizeUrl u : UrlInfo })
  if manualOnly then urls
  else
    let urls := urls ++ (if sitemapUrls.isEmpty then recursiveUrls else sitemapUrls)
    let result := dedupByUrl urls
    match maxPages with
    | none => result
    | some m => if m != 0 && decide (result.length > m) then result.take m else result

/-! ## `rag/indexer.py` — page cache (`_load_cached_page`) -/

/-- A fetched/cached page (the dicts handled by `_fetch_page_with_cache`,
`_load_cached_page` and the chunking phase of `crawl_and_index`).
`fromCache` models `page.get("from_cache")` (missing key ↦ `false`);
`cachedAt` models the parsed `cached_at` timestamp in epoch seconds. -/
structure Page where
  url : String
  html : String := ""
  lastmod : Option String := none
  cachedAt : Option Int := none
  fromCache : Bool := false
deriving Repr, DecidableEq

/-- `DocSearchIndex._load_cached_page` (`rag/indexer.py` lines 1031–1077).
`cacheFile` is the parsed content of the cache file when it exists, `now`
is `datetime.now()` in epoch seconds.  Rules in source order:
force-refresh skips the cache; a missing cache file misses; a truthy
sitemap `lastmod` differing from the cached one misses; with no truthy
`lastmod`, a positive TTL and a present `cached_at`,
`now - cached_at ≥ timedelta(hours=ttl)` misses; otherwise the cached
page is returned with `from_cache = True`. -/
def loadCachedPage (forceRefresh : Bool) (cacheFile : Option Page)
    (lastmod : Option String) (ttlHours : Nat) (now : Int) : Option Page :=
  if forceRefresh then none
  else
    match cacheFile with
    | none => none
    | some cached =>
      if strTruthy lastmod && (cached.lastmod != lastmod) then none
      else if !strTruthy lastmod && decide (0 < ttlHours) &&
          (match cached.cachedAt with
           | some t => decide ((3600 * ttlHours : Int) ≤ now - t)
           | none => false) then none
      else some { cached with fromCache := true }

/-! ## `rag/indexer.py` — `needs_update` -/

/-- `DocSearchIndex.INDEX_VERSION` (`rag/indexer.py` line 45). -/
def INDEX_VERSION : String := "1.1.0-chunker-v2"

/-- The `metadata.json` fields `needs_update` reads.  A missing key is
`none`; `lastUpdate` is the parsed `last_update` timestamp in epoch
seconds (its presence is the "prior metadata exists" test of the
source). -/
structure IndexMetadata where
  lastUpdate : Option Int := none
  version : Option String := none
  embeddingModel : Option String := none
deriving Repr, DecidableEq

/-- `DocSearchIndex.needs_update` (`rag/indexer.py` lines 117–167).
`maxPagesLimit` is `crawl_state.get("max_pages_limit")`, `now` is
`datetime.now()` in epoch seconds.  Checks in source order: missing
`last_update`; `metadata.get("version") != INDEX_VERSION`; a truthy saved
embedding model different from the configured one; both `max_pages`
values present with the configured one strictly larger; and finally
`now - last_update ≥ timedelta(hours=update_check_interval_hours)`. -/
def needsUpdate (metadata : IndexMetadata) (maxPagesLimit : Option Nat)
    (cfg : RAGConfig) (now : Int) : Bool :=
  match metadata.lastUpdate with
  | none => true
  | some lastUpdate =>
    if metadata.version != some INDEX_VERSION then true
    else if strTruthy metadata.embeddingModel &&
        (metadata.embeddingModel != some cfg.embedding_model) then true
    else if (match maxPagesLimit, cfg.max_pages with
             | some p, some c => decide (c > p)
             | _, _ => false) then true
    else decide ((3600 * cfg.update_check_interval_hours : Int) ≤ now - lastUpdate)

/-! ## `rag/indexer.py` — the chunking phase of `crawl_and_index` -/

/-- The page filter of phase 3 of `crawl_and_index` (`rag/indexer.py`
line 339): `[page for page in new_pages if not page.get("from_cache")]`. -/
def pagesToChunk (newPages : List Page) : List Page :=
  newPages.filter (fun p => !p.fromCache)

/-- The child chunks appended by phase 3 of `crawl_and_index`
(`rag/indexer.py` lines 330–394): `_create_chunks` — abstracted here as
the per-page chunk list `chunksOf`, its internals being the HTML
chunker — runs on `pages_to_chunk` only, so these are the chunks the run
adds over the previously loaded ones. -/
def newChunksOfRun {γ : Type} (chunksOf : Page → List γ) (newPages : List Page) :
    List γ :=
  (pagesToChunk newPages).flatMap chunksOf

/-! ## `rag/indexer.py` — FAISS checksum (`_compute/_save/_verify_faiss_checksum`) -/

/-- A saved FAISS index directory: file names with their byte contents
(the files `sorted(faiss_dir.glob("*"))` iterates over). -/
abbrev FaissDir : Type := List (String × List Nat)

/-- Python's string ordering on character lists: lexicographic by code
point (how `sorted()` compares the file names). -/
def charListLe : List Char → List Char → Bool
  | [], _ => true
  | _ :: _, [] => false
  | a :: as, b :: bs =>
    if a.toNat < b.toNat then true
    else if b.toNat < a.toNat then false
    else charListLe as bs

/-- Python's `≤` on strings (code-point lexicographic). -/
def nameLe (a b : String) : Bool := charListLe a.data b.data

/-- Stable ascending insertion by file name: the new entry goes after
every entry whose name compares `≤` to it. -/
def insortByName (x : String × List Nat) :
    List (String × List Nat) → List (String × List Nat)
  | [] => [x]
  | y :: ys => if nameLe y.1 x.1 then y :: insortByName x ys else x :: y :: ys

/-- Python `sorted(...)` by name (a stable sort) as an insertion sort. -/
def sortFilesByName (files : FaissDir) : FaissDir :=
  files.foldl (fun acc x => insortByName x acc) []

/-- The byte stream `_compute_faiss_checksum` (`rag/indexer.py` lines
1329–1347) feeds to `hashlib.sha256`: over the files in name-sorted
order, `hasher.update(file_path.name.encode())` then
`hasher.update(file_path.read_bytes())` — i.e. the concatenation of each
name's bytes followed by the file's bytes, with no length delimiters. -/
def shaInputStream (files : FaissDir) : List Nat :=
  (sortFilesByName files).flatMap (fun e => e.1.data.map Char.toNat ++ e.2)

/-- `_compute_faiss_checksum` with the hash function `H` abstracting
`hashlib.sha256(...).hexdigest()` (a digest of type `δ`). -/
def computeFaissChecksum {δ : Type} (H : List Nat → δ) (files : FaissDir) : δ :=
  H (shaInputStream files)

/-- The constant part of the `ValueError` message of
`_verify_faiss_checksum` (the source interpolates the two digests after
"detected."; the instruction text is verbatim). -/
def checksumMismatchMsg : String :=
  "FAISS index checksum mismatch - possible tampering detected. Delete the cache directory and rebuild the index."

/-- `_verify_faiss_checksum` warning for a legacy index. -/
def legacyChecksumWarning : String :=
  "No FAISS checksum file found (legacy index). Consider rebuilding."

/-- Outcome of `_verify_faiss_checksum`. -/
inductive ChecksumVerification where
  | verified
  | legacyWarned (warning : String)
  | tampered (error : String)
deriving Repr, DecidableEq

/-- `_verify_faiss_checksum` (`rag/indexer.py` lines 1360–1390):
a missing `faiss_index.sha256` returns `True` with a warning (legacy);
a stored digest different from the recomputed one raises `ValueError`
with a message instructing cache deletion; a match verifies. -/
def verifyFaissChecksum {δ : Type} [DecidableEq δ] (H : List Nat → δ)
    (checksumFile : Option δ) (files : FaissDir) : ChecksumVerification :=
  match checksumFile with
  | none => .legacyWarned legacyChecksumWarning
  | some expected =>
    if expected = computeFaissChecksum H files then .verified
    else .tampered checksumMismatchMsg

/-- The FAISS-loading step of `load_index` (`rag/indexer.py` lines
506–537): the checksum is verified inside a `try`; on the `ValueError`
the persisted index is not loaded (`faiss_loaded` stays `False`, and the
index is rebuilt from chunks) and the exception text is surfaced as a
warning.  Returns `(faiss_loaded, surfaced warning)`. -/
def loadFaissStep {δ : Type} [DecidableEq δ] (H : List Nat → δ)
    (checksumFile : Option δ) (files : FaissDir) : Bool × Option String :=
  match verifyFaissChecksum H checksumFile files with
  | .verified => (true, none)
  | .legacyWarned w => (true, some w)
  | .tampered e => (false, some ("Failed to load persisted FAISS index: " ++ e))

/-! ## `rag/indexer.py` — `search` and `_rerank_results` -/

/-- A candidate document returned by the ensemble retriever: its
`page_content` and the metadata keys `search` reads
(`doc.metadata.get("chunk_id")`, `.get("url", "")`,
`.get("heading_path_joined", "")`). -/
structure Doc where
  pageContent : String
  chunkId : Option String := none
  url : String := ""
  headingPathJoined : String := ""
deriving Repr, DecidableEq

/-- A parent chunk record of `self.parent_chunks`
(`{"content": ..., "metadata": ...}`). -/
structure ParentChunk where
  content : String
  metadata : Option String := none
deriving Repr, DecidableEq

/-- A result dict built by `search` (`rag/indexer.py` lines 798–817). -/
structure SearchResult where
  text : String
  url : String := ""
  headingPath : String := ""
  score : ℚ := 0
  parentText : Option String := none
  parentMetadata : Option String := none
deriving Repr, DecidableEq

/-- The searchable state of `DocSearchIndex` that `search` reads.  The
ensemble retriever and the cross-encoder are the candidate function and
the pair scorer they compute; `none` models a component that was never
loaded. -/
structure IndexState where
  config : RAGConfig := {}
  ensembleRetriever : Option (String → List Doc) := none
  crossEncoder : Option (String → String → ℚ) := none
  childToParent : List (String × String) := []
  parentChunks : List (String × ParentChunk) := []

/-- The per-candidate result construction of `search` (`rag/indexer.py`
lines 799–817), including the parent attachment: when `return_parent`
and `child_id` is truthy and maps to a parent id present in
`parent_chunks`, `parent_text` is set to that parent's `content` —
verbatim, no truncation appears in the source. -/
def searchResultOfDoc (st : IndexState) (returnParent : Bool) (doc : Doc) :
    SearchResult :=
  let base : SearchResult :=
    { text := doc.pageContent, url := doc.url,
      headingPath := doc.headingPathJoined, score := 0 }
  if returnParent then
    match doc.chunkId with
    | some cid =>
      if cid != "" then
        match st.childToParent.lookup cid with
        | some pid =>
          match st.parentChunks.lookup pid with
          | some par =>
            { base with parentText := some par.content,
                        parentMetadata := par.metadata }
          | none => base
        | none => base
      else base
    | none => base
  else base

/-- The score assignment of `_rerank_results` (`rag/indexer.py` lines
1544–1556): min–max normalization of the cross-encoder scores, with a
uniform `1.0` when `score_range = max - min` is not `> 0`. -/
def assignScores (scores : List ℚ) (results : List SearchResult) :
    List SearchResult :=
  let minScore := pyMin scores
  let maxScore := pyMax scores
  let range := maxScore - minScore
  (results.zip scores).map (fun rs =>
    if 0 < range then { rs.1 with score := (rs.2 - minScore) / range }
    else { rs.1 with score := 1 })

/-- Stable descending insertion by score: the new element goes after
every element whose score is `≥` its own, matching the stability of
Python's `sorted(..., key=lambda x: x["score"], reverse=True)`. -/
def insortDescScore (x : SearchResult) :
    List SearchResult → List SearchResult
  | [] => [x]
  | y :: ys => if x.score ≤ y.score then y :: insortDescScore x ys else x :: y :: ys

/-- Stable descending sort by score as an insertion sort. -/
def sortByScoreDesc (l : List SearchResult) : List SearchResult :=
  l.foldl (fun acc x => insortDescScore x acc) []

/-- `_rerank_results` (`rag/indexer.py` lines 1520–1561) with the
cross-encoder's `predict` output passed in as `scores` (aligned with
`results`; `zip(results, scores)` in the source): empty input returns
unchanged; otherwise scores are min–max normalized and the results are
sorted by score descending (`sorted(..., reverse=True)`, a stable
descending sort). -/
def rerankResults (scores : List ℚ) (results : List SearchResult) :
    List SearchResult :=
  match results with
  | [] => []
  | _ :: _ => sortByScoreDesc (assignScores scores results)

/-- `DocSearchIndex.search` (`rag/indexer.py` lines 766–824): default
`top_k` from the config; an unloaded ensemble retriever returns `[]`
with a logged error and no exception; otherwise candidates are converted
to results, re-ranked when `rerank_enabled and results` (and the
cross-encoder is loaded — `_rerank_results` leaves the list untouched
otherwise), and truncated to `top_k`. -/
def search (st : IndexState) (query : String) (topK : Option Nat)
    (returnParent : Bool) : List SearchResult :=
  let top_k := topK.getD st.config.search_top_k
  match st.ensembleRetriever with
  | none => []
  | some retrieve =>
    let candidates := retrieve query
    let results := candidates.map (searchResultOfDoc st returnParent)
    let results :=
      if st.config.rerank_enabled && !results.isEmpty then
        match st.crossEncoder with
        | some ce => rerankResults (results.map (fun r => ce query r.text)) results
        | none => results
      else results
    results.take top_k

/-! ## Theorems -/

/-- Claim C6: `RAGConfig` construction raises an error if and only if
`|hybrid_bm25_weight + hybrid_semantic_weight - 1.0| > 0.01`; in
particular weights `(0.5, 0.5)` are accepted and weights `(0.4, 0.7)`
are rejected at construction, before any indexing work happens. -/
theorem c6_weight_validation :
    (∀ cfg : RAGConfig,
      (∃ msg, ragConfigPostInit cfg = .error msg) ↔
        |cfg.hybrid_bm25_weight + cfg.hybrid_semantic_weight - 1| > 1/100) ∧
    ragConfigPostInit { hybrid_bm25_weight := 1/2, hybrid_semantic_weight := 1/2 } =
      .ok { hybrid_bm25_weight := 1/2, hybrid_semantic_weight := 1/2 } ∧
    (∃ msg, ragConfigPostInit
        { hybrid_bm25_weight := 2/5, hybrid_semantic_weight := 7/10 } = .error msg) := by
  refine ⟨fun cfg => ?_, ?_, ?_⟩
  · unfold ragConfigPostInit
    split
    · next h => exact ⟨fun _ => h, fun _ => ⟨_, rfl⟩⟩
    · next h => simpa using h
  · unfold ragConfigPostInit
    rw [if_neg]
    norm_num
  · refine ⟨"Hybrid search weights must sum to 1.0", ?_⟩
    unfold ragConfigPostInit
    rw [if_pos]
    norm_num [abs_of_nonneg]

/-- Claim C7: for every query and every combination of `top_k` and
`return_parent`, an unloaded ensemble retriever makes `search` return
the empty list without raising. -/
theorem c7_search_unloaded_empty (st : IndexState) (query : String)
    (topK : Option Nat) (returnParent : Bool)
    (h : st.ensembleRetriever = none) :
    search st query topK returnParent = [] := by
  simp [search, h]

/-- Witness for C7 at a concrete unloaded state. -/
theorem c7_witness :
    search { ensembleRetriever := none } "query" none true = [] :=
  c7_search_unloaded_empty _ "query" none true rfl

/-- Claim C1: a page with `from_cache = true` is excluded from the
chunking phase of `crawl_and_index`, and every chunk the run adds comes
from a page with `from_cache = false` — a cache-hit page contributes
zero new chunks. -/
theorem c1_cache_hit_pages_not_rechunked {γ : Type} (chunksOf : Page → List γ)
    (newPages : List Page) (p : Page) (hp : p.fromCache = true) :
    p ∉ pagesToChunk newPages ∧
    ∀ c ∈ newChunksOfRun chunksOf newPages,
      ∃ q, q ∈ newPages ∧ q.fromCache = false ∧ c ∈ chunksOf q := by
  constructor
  · intro hmem
    have h := List.mem_filter.mp hmem
    rw [hp] at h
    simp at h
  · intro c hc
    obtain ⟨q, hq, hcq⟩ := List.mem_flatMap.mp hc
    obtain ⟨hqmem, hqc⟩ := List.mem_filter.mp hq
    refine ⟨q, hqmem, ?_, hcq⟩
    simpa using hqc

/-- Witness for C1 on a one-page run whose only page is a cache hit. -/
theorem c1_witness :
    ({ url := "u", fromCache := true } : Page) ∉
      pagesToChunk [{ url := "u", fromCache := true }] ∧
    ∀ c ∈ newChunksOfRun (fun _ => [(0 : Nat)])
        [({ url := "u", fromCache := true } : Page)],
      ∃ q, q ∈ [({ url := "u", fromCache := true } : Page)] ∧
        q.fromCache = false ∧ c ∈ [(0 : Nat)] :=
  c1_cache_hit_pages_not_rechunked (fun _ => [0]) _ _ rfl

/-- Claim C5, evaluated at a failing input: the claim says `max_pages = 0`
yields an empty run with no URLs to index, but `discover_and_crawl`
guards the limit with the truthiness test `if self.max_pages and ...`,
which is false at `0`, so the full discovered list is returned.  With
`max_pages = 1` the limit does apply, isolating the `0` case as the
slip. -/
theorem c5_max_pages_zero_not_empty_run :
    discoverAndCrawl [] false (some 0) [{ url := "https://e.com/a" }] [] =
      [{ url := "https://e.com/a" }] ∧
    discoverAndCrawl [] false (some 1)
      [{ url := "https://e.com/a" }, { url := "https://e.com/b" }] [] =
      [{ url := "https://e.com/a" }] := by decide

/-- A concrete searchable state for C4: one candidate child `c1` whose
parent `p1` has the 2-character content `"ab"`, with
`parent_context_max_chars = 1` configured. -/
def c4State : IndexState :=
  { ensembleRetriever := some (fun _ => [{ pageContent := "t", chunkId := some "c1" }]),
    childToParent := [("c1", "p1")],
    parentChunks := [("p1", { content := "ab" })],
    config := { rerank_enabled := false, parent_context_max_chars := 1 } }

/-- Claim C4, evaluated at a failing input: the claim says the attached
`parent_text` is truncated to `parent_context_max_chars` characters, but
`search` attaches the parent's full content — `parent_context_max_chars`
is read nowhere in the code — so a 2-character parent is attached whole
under a limit of 1. -/
theorem c4_parent_text_never_truncated :
    (search c4State "q" none true).map (fun r => r.parentText) = [some "ab"] ∧
    c4State.config.parent_context_max_chars = 1 ∧
    "ab".length = 2 := by decide

/-- Claim C8: the page-cache invalidation rules apply in source order —
force-refresh skips the cache entirely; otherwise a supplied (truthy)
sitemap `lastmod` differing from the cached one misses; otherwise with
no `lastmod`, a positive TTL and `now - cached_at` at least the TTL the
cache is invalid; in all remaining cases the cached page is returned
with `from_cache = true`. -/
theorem c8_page_cache_rules (cacheFile : Option Page) (lastmod : Option String)
    (ttl : Nat) (now : Int) :
    (loadCachedPage true cacheFile lastmod ttl now = none) ∧
    (∀ cached, cacheFile = some cached → strTruthy lastmod = true →
      cached.lastmod ≠ lastmod →
      loadCachedPage false cacheFile lastmod ttl now = none) ∧
    (∀ cached t, cacheFile = some cached → strTruthy lastmod = false →
      0 < ttl → cached.cachedAt = some t → (3600 * ttl : Int) ≤ now - t →
      loadCachedPage false cacheFile lastmod ttl now = none) ∧
    (∀ cached, cacheFile = some cached →
      ¬(strTruthy lastmod = true ∧ cached.lastmod ≠ lastmod) →
      ¬(strTruthy lastmod = false ∧ 0 < ttl ∧
        ∃ t, cached.cachedAt = some t ∧ (3600 * ttl : Int) ≤ now - t) →
      loadCachedPage false cacheFile lastmod ttl now =
        some { cached with fromCache := true }) := by
  refine ⟨by simp [loadCachedPage], ?_, ?_, ?_⟩
  · rintro cached rfl hTruthy hNe
    simp [loadCachedPage, hTruthy, hNe]
  · rintro cached t rfl hTruthy httl hca hage
    simp [loadCachedPage, hTruthy, httl, hca, hage]
  · rintro cached rfl hn1 hn2
    have h1 : (strTruthy lastmod && (cached.lastmod != lastmod)) = false := by
      cases hst : strTruthy lastmod
      · simp
      · simp only [Bool.true_and, bne_eq_false_iff_eq]
        by_contra hne
        exact hn1 ⟨hst, hne⟩
    have h2 : (!strTruthy lastmod && decide (0 < ttl) &&
        (match cached.cachedAt with
         | some t => decide ((3600 * ttl : Int) ≤ now - t)
         | none => false)) = false := by
      cases hst : strTruthy lastmod
      · by_cases httl : 0 < ttl
        · cases hca : cached.cachedAt with
          | none => simp
          | some t =>
            have hage : ¬ (3600 * ttl : Int) ≤ now - t :=
              fun hage => hn2 ⟨hst, httl, t, hca, hage⟩
            simp [hage]
        · simp [httl]
      · simp
    simp only [loadCachedPage, if_neg (Bool.not_eq_true _ ▸ rfl), Bool.false_eq_true,
      if_false]
    rw [if_neg (by simp [h1]), if_neg (by simp [h2])]

/-- Witness for C8: a cached page whose `lastmod` changed relative to the
sitemap misses the cache. -/
theorem c8_witness :
    loadCachedPage false (some { url := "u", lastmod := some "A" })
      (some "B") 0 0 = none :=
  (c8_page_cache_rules (some { url := "u", lastmod := some "A" })
      (some "B") 0 0).2.1 _ rfl rfl (by decide)

/-- Claim C9: `needs_update()` returns true iff no prior metadata exists
(`last_update` missing), or the persisted index version differs from
`INDEX_VERSION`, or a persisted (non-empty) embedding model differs from
the configured one, or the configured `max_pages` is strictly larger
than the stored `max_pages_limit`, or the time since `last_update` is at
least `update_check_interval_hours`. -/
theorem c9_needs_update_iff (m : IndexMetadata) (maxPagesLimit : Option Nat)
    (cfg : RAGConfig) (now : Int) :
    needsUpdate m maxPagesLimit cfg now = true ↔
      m.lastUpdate = none
      ∨ m.version ≠ some INDEX_VERSION
      ∨ (∃ em, m.embeddingModel = some em ∧ em ≠ "" ∧ em ≠ cfg.embedding_model)
      ∨ (∃ p c, maxPagesLimit = some p ∧ cfg.max_pages = some c ∧ p < c)
      ∨ (∃ t, m.lastUpdate = some t ∧
          (3600 * cfg.update_check_interval_hours : Int) ≤ now - t) := by
  obtain ⟨lu, v, em⟩ := m
  cases lu with
  | none => simp [needsUpdate]
  | some t =>
    by_cases hv : v = some INDEX_VERSION
    · subst hv
      cases em with
      | none =>
        simp only [needsUpdate, strTruthy]
        cases hmp : maxPagesLimit with
        | none => simp [hmp]
        | some p =>
          cases hcp : cfg.max_pages with
          | none => simp
          | some c =>
            by_cases hpc : p < c
            · simp [hpc]
            · simp [hpc]
      | some s =>
        by_cases hs : s = ""
        · subst hs
          simp only [needsUpdate, strTruthy]
          cases hmp : maxPagesLimit with
          | none => simp
          | some p =>
            cases hcp : cfg.max_pages with
            | none => simp
            | some c =>
              by_cases hpc : p < c
              · simp [hpc]
              · simp [hpc]
        · by_cases hm : s = cfg.embedding_model
          · subst hm
            simp only [needsUpdate, strTruthy]
            cases hmp : maxPagesLimit with
            | none => simp [hs]
            | some p =>
              cases hcp : cfg.max_pages with
              | none => simp [hs]
              | some c =>
                by_cases hpc : p < c
                · simp [hs, hpc]
                · simp [hs, hpc]
          · simp [needsUpdate, strTruthy, hs, hm]
    · simp [needsUpdate, hv]

/-- Elements survive `rstripSlash`. -/
theorem mem_rstripSlash {a : Char} {s : List Char} (h : a ∈ rstripSlash s) :
    a ∈ s := by
  unfold rstripSlash at h
  rw [List.mem_reverse] at h
  exact List.mem_reverse.mp (List.IsSuffix.mem h (List.dropWhile_suffix _))

/-- `rstripSlash` is Mathlib's `rdropWhile` at the slash predicate. -/
theorem rstripSlash_eq_rdropWhile (s : List Char) :
    rstripSlash s = List.rdropWhile (fun a => a = '/') s := rfl

/-- Claim C10: `_normalize_url` is idempotent, and its output never
contains `'?'` or `'#'` and never ends with `'/'`. -/
theorem c10_normalize_url (u : String) :
    normalizeUrl (normalizeUrl u) = normalizeUrl u ∧
    (∀ c ∈ (normalizeUrl u).data, c ≠ '?' ∧ c ≠ '#') ∧
    (∀ c, (normalizeUrl u).data.getLast? = some c → c ≠ '/') := by
  have hdata : (normalizeUrl u).data = normalizeUrlChars u.data := rfl
  have hmem : ∀ c ∈ normalizeUrlChars u.data, c ≠ '?' ∧ c ≠ '#' := by
    intro c hc
    have hc2 : c ∈ splitHead '#' (splitHead '?' u.data) := mem_rstripSlash hc
    constructor
    · have hc3 : c ∈ splitHead '?' u.data :=
        List.Sublist.mem hc2 (List.takeWhile_sublist _)
      simpa using List.mem_takeWhile_imp hc3
    · simpa using List.mem_takeWhile_imp hc2
  refine ⟨?_, by rw [hdata]; exact hmem, ?_⟩
  · show String.mk (normalizeUrlChars (normalizeUrlChars u.data)) =
      String.mk (normalizeUrlChars u.data)
    congr 1
    have h1 : splitHead '?' (normalizeUrlChars u.data) = normalizeUrlChars u.data := by
      unfold splitHead
      rw [List.takeWhile_eq_self_iff]
      intro x hx
      simpa using (hmem x hx).1
    have h2 : splitHead '#' (normalizeUrlChars u.data) = normalizeUrlChars u.data := by
      unfold splitHead
      rw [List.takeWhile_eq_self_iff]
      intro x hx
      simpa using (hmem x hx).2
    have hstep : normalizeUrlChars (normalizeUrlChars u.data) =
        rstripSlash (splitHead '#' (splitHead '?' (normalizeUrlChars u.data))) := rfl
    rw [hstep, h1, h2]
    have hX : normalizeUrlChars u.data =
        rstripSlash (splitHead '#' (splitHead '?' u.data)) := rfl
    rw [hX]
    simp only [rstripSlash_eq_rdropWhile]
    exact List.rdropWhile_idempotent _ _
  · intro c hc
    rw [hdata] at hc
    have hrw : (normalizeUrlChars u.data).getLast? =
        ((splitHead '#' (splitHead '?' u.data)).reverse.dropWhile
          (fun a => a = '/')).head? := by
      show (rstripSlash (splitHead '#' (splitHead '?' u.data))).getLast? = _
      unfold rstripSlash
      rw [List.getLast?_reverse]
    rw [hrw] at hc
    have h := List.head?_dropWhile_not (fun a => a = '/')
      ((splitHead '#' (splitHead '?' u.data)).reverse)
    rw [hc] at h
    simpa using h

/-- Witness for C10 at concrete URLs. -/
theorem c10_witness :
    normalizeUrl (normalizeUrl "https://e.com/a/?q=1#f") =
      normalizeUrl "https://e.com/a/?q=1#f" ∧
    ('a' ≠ '?' ∧ 'a' ≠ '#') ∧
    'b' ≠ '/' :=
  ⟨(c10_normalize_url "https://e.com/a/?q=1#f").1,
   (c10_normalize_url "https://e.com/a/?q=1#f").2.1 'a' (by decide),
   (c10_normalize_url "a/b").2.2 'b' (by decide)⟩

/-- Counterexample to C2 as stated: the checksum hashes the concatenation
of sorted file names and contents with no length delimiters, so moving a
byte from file `a` into file `b` changes the bytes of both files yet
leaves the hashed stream — hence the SHA-256 digest, for any hash
function whatsoever — identical, and the next load proceeds normally
instead of refusing. -/
theorem c2_counterexample_cross_file_byte_swap :
    ([("a", [98]), ("b", [])] : FaissDir) ≠ [("a", []), ("b", [98])] ∧
    ([("a", [98]), ("b", [])] : FaissDir).map Prod.fst =
      ([("a", []), ("b", [98])] : FaissDir).map Prod.fst ∧
    shaInputStream [("a", []), ("b", [98])] = shaInputStream [("a", [98]), ("b", [])] ∧
    loadFaissStep (fun s => s)
      (some (computeFaissChecksum (fun s => s) [("a", [98]), ("b", [])]))
      [("a", []), ("b", [98])] = (true, none) := by decide

/-- Claim C2 amended: with an injective digest function, any change to
the saved index directory that alters the hashed stream of sorted file
names and contents (in particular any byte change confined to the files'
contents that does alter that concatenation) makes the next load refuse
the persisted index and surface the message instructing cache deletion;
a missing checksum file loads with a warning only. -/
theorem c2_checksum_guard {δ : Type} [DecidableEq δ] (H : List Nat → δ)
    (files0 files1 : FaissDir)
    (hinj : Function.Injective H)
    (hchg : shaInputStream files1 ≠ shaInputStream files0) :
    verifyFaissChecksum H (some (computeFaissChecksum H files0)) files1 =
      .tampered checksumMismatchMsg ∧
    loadFaissStep H (some (computeFaissChecksum H files0)) files1 =
      (false, some ("Failed to load persisted FAISS index: " ++ checksumMismatchMsg)) ∧
    (∀ files : FaissDir, loadFaissStep H none files = (true, some legacyChecksumWarning)) := by
  have hne : computeFaissChecksum H files0 ≠ computeFaissChecksum H files1 :=
    fun h => hchg (hinj h).symm
  have hver : verifyFaissChecksum H (some (computeFaissChecksum H files0)) files1 =
      .tampered checksumMismatchMsg := by
    simp [verifyFaissChecksum, hne]
  exact ⟨hver, by simp [loadFaissStep, hver], fun files => by
    simp [loadFaissStep, verifyFaissChecksum]⟩

/-- Witness for C2 (amended) with the identity digest on a single-file
directory whose one byte changed. -/
theorem c2_witness :
    verifyFaissChecksum (fun s => s)
      (some (computeFaissChecksum (fun s => s) [("a", [0])])) [("a", [1])] =
      .tampered checksumMismatchMsg ∧
    loadFaissStep (fun s => s)
      (some (computeFaissChecksum (fun s => s) [("a", [0])])) [("a", [1])] =
      (false, some ("Failed to load persisted FAISS index: " ++ checksumMismatchMsg)) ∧
    (∀ files : FaissDir, loadFaissStep (fun s => s) none files =
      (true, some legacyChecksumWarning)) :=
  c2_checksum_guard (fun s => s) [("a", [0])] [("a", [1])]
    (fun _ _ h => h) (by decide)

/-- A `min`-fold is below its initial value. -/
theorem foldl_min_le_init (xs : List ℚ) (a : ℚ) : xs.foldl min a ≤ a := by
  induction xs generalizing a with
  | nil => exact le_refl a
  | cons c t ih => exact le_trans (ih (min a c)) (min_le_left a c)

/-- A `min`-fold is below every list element. -/
theorem foldl_min_le_mem {xs : List ℚ} {b : ℚ} (hb : b ∈ xs) (a : ℚ) :
    xs.foldl min a ≤ b := by
  induction xs generalizing a with
  | nil => cases hb
  | cons c t ih =>
    rcases List.mem_cons.mp hb with rfl | hbt
    · exact le_trans (foldl_min_le_init t (min a b)) (min_le_right a b)
    · exact ih hbt (min a c)

/-- A `max`-fold is above its initial value. -/
theorem init_le_foldl_max (xs : List ℚ) (a : ℚ) : a ≤ xs.foldl max a := by
  induction xs generalizing a with
  | nil => exact le_refl a
  | cons c t ih => exact le_trans (le_max_left a c) (ih (max a c))

/-- A `max`-fold is above every list element. -/
theorem mem_le_foldl_max {xs : List ℚ} {b : ℚ} (hb : b ∈ xs) (a : ℚ) :
    b ≤ xs.foldl max a := by
  induction xs generalizing a with
  | nil => cases hb
  | cons c t ih =>
    rcases List.mem_cons.mp hb with rfl | hbt
    · exact le_trans (le_max_right a b) (init_le_foldl_max t (max a b))
    · exact ih hbt (max a c)

/-- `pyMin` bounds every member from below. -/
theorem pyMin_le_mem {scores : List ℚ} {s : ℚ} (h : s ∈ scores) :
    pyMin scores ≤ s := by
  cases scores with
  | nil => cases h
  | cons x xs =>
    rcases List.mem_cons.mp h with rfl | hxs
    · exact foldl_min_le_init xs s
    · exact foldl_min_le_mem hxs x

/-- `pyMax` bounds every member from above. -/
theorem mem_le_pyMax {scores : List ℚ} {s : ℚ} (h : s ∈ scores) :
    s ≤ pyMax scores := by
  cases scores with
  | nil => cases h
  | cons x xs =>
    rcases List.mem_cons.mp h with rfl | hxs
    · exact init_le_foldl_max xs s
    · exact mem_le_foldl_max hxs x

/-- Insertion produces the expected permutation. -/
theorem insortDescScore_perm (x : SearchResult) (l : List SearchResult) :
    (insortDescScore x l).Perm (x :: l) := by
  induction l with
  | nil => exact List.Perm.refl _
  | cons y ys ih =>
    unfold insortDescScore
    split
    · exact (ih.cons y).trans (List.Perm.swap x y ys)
    · exact List.Perm.refl _

/-- Insertion preserves descending sortedness by score. -/
theorem pairwise_insortDescScore {x : SearchResult} {l : List SearchResult}
    (h : l.Pairwise (fun a b => b.score ≤ a.score)) :
    (insortDescScore x l).Pairwise (fun a b => b.score ≤ a.score) := by
  induction l with
  | nil => simp [insortDescScore]
  | cons y ys ih =>
    rw [List.pairwise_cons] at h
    unfold insortDescScore
    split
    · next hxy =>
      rw [List.pairwise_cons]
      refine ⟨?_, ih h.2⟩
      intro z hz
      rcases List.mem_cons.mp ((insortDescScore_perm x ys).mem_iff.mp hz) with rfl | hzys
      · exact hxy
      · exact h.1 z hzys
    · next hxy =>
      rw [List.pairwise_cons]
      refine ⟨?_, List.pairwise_cons.mpr h⟩
      intro z hz
      rcases List.mem_cons.mp hz with rfl | hzys
      · exact le_of_not_le hxy
      · exact le_trans (h.1 z hzys) (le_of_not_le hxy)

/-- The insertion-sort fold permutes its input onto the accumulator. -/
theorem foldl_insort_perm (l acc : List SearchResult) :
    (l.foldl (fun acc x => insortDescScore x acc) acc).Perm (acc ++ l) := by
  induction l generalizing acc with
  | nil => simp
  | cons x xs ih =>
    refine (ih (insortDescScore x acc)).trans ?_
    refine (((insortDescScore_perm x acc).append_right xs).trans ?_)
    exact List.perm_middle.symm

/-- The insertion-sort fold keeps the accumulator sorted. -/
theorem foldl_insort_pairwise (l : List SearchResult) :
    ∀ acc, acc.Pairwise (fun a b => b.score ≤ a.score) →
      (l.foldl (fun acc x => insortDescScore x acc) acc).Pairwise
        (fun a b => b.score ≤ a.score) := by
  induction l with
  | nil => exact fun acc h => h
  | cons x xs ih => exact fun acc h => ih _ (pairwise_insortDescScore h)

/-- `sortByScoreDesc` permutes its input. -/
theorem sortByScoreDesc_perm (l : List SearchResult) :
    (sortByScoreDesc l).Perm l :=
  (foldl_insort_perm l []).trans (by simp)

/-- `sortByScoreDesc` sorts descending by score. -/
theorem pairwise_sortByScoreDesc (l : List SearchResult) :
    (sortByScoreDesc l).Pairwise (fun a b => b.score ≤ a.score) :=
  foldl_insort_pairwise l [] (List.Pairwise.nil)

/-- Every score assigned by `assignScores` lies in `[0, 1]`. -/
theorem assignScores_mem_bounds (scores : List ℚ) (results : List SearchResult) :
    ∀ r ∈ assignScores scores results, 0 ≤ r.score ∧ r.score ≤ 1 := by
  intro r hr
  unfold assignScores at hr
  obtain ⟨rs, hrs, rfl⟩ := List.mem_map.mp hr
  have hs : rs.2 ∈ scores := (List.of_mem_zip hrs).2
  by_cases hrange : (0 : ℚ) < pyMax scores - pyMin scores
  · rw [if_pos hrange]
    constructor
    · exact div_nonneg (sub_nonneg.mpr (pyMin_le_mem hs)) (le_of_lt hrange)
    · rw [div_le_one hrange]
      exact sub_le_sub_right (mem_le_pyMax hs) _
  · rw [if_neg hrange]
    norm_num

/-- With equal extremes every assigned score is exactly 1. -/
theorem assignScores_uniform {scores : List ℚ} (results : List SearchResult)
    (h : pyMin scores = pyMax scores) :
    ∀ r ∈ assignScores scores results, r.score = 1 := by
  intro r hr
  unfold assignScores at hr
  obtain ⟨rs, hrs, rfl⟩ := List.mem_map.mp hr
  rw [if_neg (by rw [← h]; simp)]

/-- Claim C3: for a non-empty candidate list with re-ranking enabled, the
re-ranker assigns each result `(score - min) / (max - min)`, which lies
in `[0, 1]` (uniformly `1.0` when `max = min`); the list `search`
returns is this assignment sorted descending by score and truncated to
`top_k`. -/
theorem c3_rerank_normalize_sort_truncate
    (scores : List ℚ) (results : List SearchResult)
    (hne : results ≠ []) (hlen : scores.length = results.length) :
    (rerankResults scores results).length = results.length ∧
    (rerankResults scores results).Perm (assignScores scores results) ∧
    (∀ r ∈ rerankResults scores results, 0 ≤ r.score ∧ r.score ≤ 1) ∧
    (pyMin scores = pyMax scores →
      ∀ r ∈ rerankResults scores results, r.score = 1) ∧
    (rerankResults scores results).Pairwise (fun a b => b.score ≤ a.score) ∧
    (∀ (st : IndexState) (query : String) (topK : Option Nat)
       (returnParent : Bool) (retrieve : String → List Doc)
       (ce : String → String → ℚ),
      st.ensembleRetriever = some retrieve →
      st.crossEncoder = some ce →
      st.config.rerank_enabled = true →
      (retrieve query).map (searchResultOfDoc st returnParent) = results →
      results.map (fun r => ce query r.text) = scores →
      search st query topK returnParent =
        (rerankResults scores results).take (topK.getD st.config.search_top_k) ∧
      (search st query topK returnParent).Pairwise
        (fun a b => b.score ≤ a.score)) := by
  obtain ⟨r0, rs, rfl⟩ : ∃ r0 rs, results = r0 :: rs := by
    cases results with
    | nil => exact absurd rfl hne
    | cons a l => exact ⟨a, l, rfl⟩
  have hrr : rerankResults scores (r0 :: rs) =
      sortByScoreDesc (assignScores scores (r0 :: rs)) := rfl
  have hperm : (rerankResults scores (r0 :: rs)).Perm
      (assignScores scores (r0 :: rs)) := by
    rw [hrr]; exact sortByScoreDesc_perm _
  have hpair : (rerankResults scores (r0 :: rs)).Pairwise
      (fun a b => b.score ≤ a.score) := by
    rw [hrr]; exact pairwise_sortByScoreDesc _
  refine ⟨?_, hperm, ?_, ?_, hpair, ?_⟩
  · rw [hperm.length_eq]
    unfold assignScores
    rw [List.length_map, List.length_zip, ← hlen, min_self]
  · exact fun r hr => assignScores_mem_bounds scores _ r (hperm.mem_iff.mp hr)
  · exact fun h r hr => assignScores_uniform _ h r (hperm.mem_iff.mp hr)
  · intro st query topK returnParent retrieve ce hre hce hen hres hsc
    have hsearch : search st query topK returnParent =
        (rerankResults scores (r0 :: rs)).take (topK.getD st.config.search_top_k) := by
      unfold search
      rw [hre]
      simp only [hres, hce, hen, List.isEmpty_cons, Bool.not_false, Bool.and_self,
        if_true, hsc]
    refine ⟨hsearch, ?_⟩
    rw [hsearch]
    exact hpair.sublist (List.take_sublist _ _)

/-- A concrete loaded state for the C3 witness: two candidates scored 1
and 3 by the cross-encoder. -/
def c3State : IndexState :=
  { config := { rerank_enabled := true },
    ensembleRetriever := some (fun _ => [{ pageContent := "x" }, { pageContent := "y" }]),
    crossEncoder := some (fun _ t => if t = "x" then 1 else 3) }

/-- Witness for C3 at the concrete state `c3State`. -/
theorem c3_witness :
    search c3State "q" none true =
      (rerankResults [1, 3] [{ text := "x" }, { text := "y" }]).take 5 ∧
    (search c3State "q" none true).Pairwise (fun a b => b.score ≤ a.score) :=
  (c3_rerank_normalize_sort_truncate [1, 3] [{ text := "x" }, { text := "y" }]
      (by simp) rfl).2.2.2.2.2 c3State "q" none true
    (fun _ => [{ pageContent := "x" }, { pageContent := "y" }])
    (fun _ t => if t = "x" then 1 else 3)
    rfl rfl rfl (by decide) (by decide)

end LlmToolsServer
